import Mathlib

/-!
Shallow embedding of the streaming session orchestrator of
`src/server/app.py` (AgentDemo): the Event Translator
(`_process_message_chunk`, `_get_agent_name`,
`_create_event_stream_message`, `_process_tool_call_chunks`), the
Interrupt Handler (`_create_interrupt_event`), the Stream Framer
(`_make_event`), the initial-message side logging
(`_process_initial_messages`), and the workflow generator
(`_astream_workflow_generator`) with its checkpoint backend selection.

Python dicts that carry event payloads are embedded as association
lists with unique keys (`EventData`); `json.dumps` on those payloads is
embedded as `dumps`, parameterised by `ensure_ascii` and by the item /
key separators, and returning `none` where the Python call would raise
`TypeError`/`ValueError` on a non-serializable value.
-/

namespace AgentDemo

/-- A completed structured tool call as carried on
`message_chunk.tool_calls` (LangChain's dict with keys
`name`/`args`/`id`/`type`); `args` is carried as the already-rendered
JSON text of the argument mapping, which this subsystem never inspects. -/
structure ToolCall where
  name : String
  args : String
  id : String
deriving DecidableEq

/-- A sanitized tool-call chunk as produced by
`_process_tool_call_chunks`: keys `name`/`args`/`id`/`index`/`type`. -/
structure ProcessedChunk where
  name : String
  args : String
  id : String
  index : Int
  type : String
deriving DecidableEq

/-- A JSON-serializable (or not) value appearing in an event payload
dict. `nonSerializable` stands for any Python object `json.dumps`
rejects. `toolCalls`, `chunks` and `options` are the three list-valued
payload fields the orchestrator produces. -/
inductive FieldValue where
  | str (s : String)
  | int (n : Int)
  | toolCalls (xs : List ToolCall)
  | chunks (xs : List ProcessedChunk)
  | options (xs : List (String × String))
  | nonSerializable
deriving DecidableEq

/-- An event payload dict: association list with unique keys, in
insertion order (Python dicts preserve insertion order). -/
abbrev EventData : Type := List (String × FieldValue)

/-- Embedding of `d.get(k)` on a payload dict. -/
def dictGet (d : EventData) (k : String) : Option FieldValue :=
  match d.find? (fun kv => kv.1 == k) with
  | some kv => some kv.2
  | none => none

/-- Embedding of `d.get(k, default)` for the string-valued keys the framer reads
(`thread_id`, `finish_reason`); on the orchestrator's payloads these
keys are always strings when present. -/
def dictGetStrD (d : EventData) (k : String) (dflt : String) : String :=
  match dictGet d k with
  | some (.str s) => s
  | _ => dflt

/-- Embedding of `d.pop(k)`: removes the key (unique in a dict, so a filter). -/
def dictPop (d : EventData) (k : String) : EventData :=
  d.filter (fun kv => kv.1 != k)

/-- Lowercase hex digit. -/
def hexDigit (n : Nat) : Char :=
  if n < 10 then Char.ofNat (48 + n) else Char.ofNat (87 + n % 16)

/-- Four hex digits of a code unit, as in a JSON `\uXXXX` escape. -/
def hex4 (n : Nat) : String :=
  String.mk [hexDigit (n / 4096 % 16), hexDigit (n / 256 % 16),
    hexDigit (n / 16 % 16), hexDigit (n % 16)]

/-- How Python's `json.dumps` renders one character inside a string
literal: `"`/`\` and control characters are escaped always; characters
at or above U+0080 are escaped only when `ensure_ascii` is set
(surrogate pairs above the BMP), and otherwise pass through verbatim. -/
def escapeChar (ensure_ascii : Bool) (c : Char) : String :=
  if c = '"' then "\\\""
  else if c = '\\' then "\\\\"
  else if c = '\n' then "\\n"
  else if c = '\t' then "\\t"
  else if c = '\r' then "\\r"
  else if c.toNat = 8 then "\\b"
  else if c.toNat = 12 then "\\f"
  else if c.toNat < 32 then "\\u" ++ hex4 c.toNat
  else if ensure_ascii ∧ 128 ≤ c.toNat then
    if c.toNat < 65536 then "\\u" ++ hex4 c.toNat
    else "\\u" ++ hex4 (55296 + (c.toNat - 65536) / 1024) ++
      "\\u" ++ hex4 (56320 + (c.toNat - 65536) % 1024)
  else String.singleton c

/-- Concatenation of a list of strings. -/
def strConcat : List String → String
  | [] => ""
  | x :: xs => x ++ strConcat xs

/-- Body of a JSON string literal: every character escaped per
`escapeChar`. -/
def escapeBody (ensure_ascii : Bool) (s : String) : String :=
  strConcat (s.data.map (escapeChar ensure_ascii))

/-- A JSON string literal. -/
def encodeString (ensure_ascii : Bool) (s : String) : String :=
  "\"" ++ escapeBody ensure_ascii s ++ "\""

/-- Join with a separator, as `json.dumps` joins dict items. -/
def joinSep (sep : String) : List String → String
  | [] => ""
  | [x] => x
  | x :: y :: xs => x ++ sep ++ joinSep sep (y :: xs)

/-- Render one LangChain tool-call dict. -/
def renderToolCall (ea : Bool) (isep ksep : String) (tc : ToolCall) : String :=
  "\x7b" ++ encodeString ea "name" ++ ksep ++ encodeString ea tc.name ++ isep ++
    encodeString ea "args" ++ ksep ++ tc.args ++ isep ++
    encodeString ea "id" ++ ksep ++ encodeString ea tc.id ++ isep ++
    encodeString ea "type" ++ ksep ++ encodeString ea "tool_call" ++ "\x7d"

/-- Render one sanitized tool-call-chunk dict. -/
def renderChunk (ea : Bool) (isep ksep : String) (c : ProcessedChunk) : String :=
  "\x7b" ++ encodeString ea "name" ++ ksep ++ encodeString ea c.name ++ isep ++
    encodeString ea "args" ++ ksep ++ encodeString ea c.args ++ isep ++
    encodeString ea "id" ++ ksep ++ encodeString ea c.id ++ isep ++
    encodeString ea "index" ++ ksep ++ toString c.index ++ isep ++
    encodeString ea "type" ++ ksep ++ encodeString ea c.type ++ "\x7d"

/-- Render one interrupt resume-option dict (`text`/`value`). -/
def renderOption (ea : Bool) (isep ksep : String) (o : String × String) : String :=
  "\x7b" ++ encodeString ea "text" ++ ksep ++ encodeString ea o.1 ++ isep ++
    encodeString ea "value" ++ ksep ++ encodeString ea o.2 ++ "\x7d"

/-- Render one payload value; `none` exactly on a non-serializable
value (where `json.dumps` raises). -/
def FieldValue.render (ea : Bool) (isep ksep : String) : FieldValue → Option String
  | .str s => some (encodeString ea s)
  | .int n => some (toString n)
  | .toolCalls xs => some ("[" ++ joinSep isep (xs.map (renderToolCall ea isep ksep)) ++ "]")
  | .chunks xs => some ("[" ++ joinSep isep (xs.map (renderChunk ea isep ksep)) ++ "]")
  | .options xs => some ("[" ++ joinSep isep (xs.map (renderOption ea isep ksep)) ++ "]")
  | .nonSerializable => none

/-- Traverse a list under `Option`: `none` as soon as `f` fails. -/
def mapOpt (f : α → Option β) : List α → Option (List β)
  | [] => some []
  | x :: xs =>
    match f x, mapOpt f xs with
    | some y, some ys => some (y :: ys)
    | _, _ => none

/-- The rendering of one `key: value` dict item. -/
def renderItem (ea : Bool) (isep ksep : String) (kv : String × FieldValue) : Option String :=
  (FieldValue.render ea isep ksep kv.2).map (fun v => encodeString ea kv.1 ++ ksep ++ v)

/-- Embedding of `json.dumps(d, ensure_ascii=ea, separators=(isep, ksep))` on a
payload dict: `none` when any value is non-serializable. -/
def dumps (ea : Bool) (isep ksep : String) (d : EventData) : Option String :=
  match mapOpt (renderItem ea isep ksep) d with
  | some parts => some ("\x7b" ++ joinSep isep parts ++ "\x7d")
  | none => none

/-- One record appended to the per-thread side log: the arguments of a
`chat_stream_message(thread_id, message, finish_reason)` call (the sink
itself lives outside this subsystem; only the forwarded record is
modelled). -/
structure LogRecord where
  thread_id : String
  message : String
  finish_reason : String
deriving DecidableEq

/-- The observable result of `_make_event`: the emitted wire event type
and JSON payload (the returned SSE text is `sse` below), plus the side
log record forwarded via `chat_stream_message`, if any. -/
structure Framed where
  event : String
  payload : String
  log : Option LogRecord
deriving DecidableEq

/-- The SSE text returned by `_make_event`
(`f"event: {event_type}\ndata: {json_data}\n\n"`). -/
def Framed.sse (f : Framed) : String :=
  "event: " ++ f.event ++ "\ndata: " ++ f.payload ++ "\n\n"

/-- Embedding of `_make_event(event_type, data)` from `src/server/app.py`: drop the
`content` key when it equals `""`; serialize with `ensure_ascii=False`
and default separators; on success forward the framed record to the
side log tagged with `finish_reason` (default `""`); on serialization
failure return a substitute `error` event with a fixed payload. -/
def _make_event (event_type : String) (data : EventData) : Framed :=
  let data := if dictGet data "content" = some (.str "") then dictPop data "content" else data
  match dumps false ", " ": " data with
  | some json_data =>
    { event := event_type,
      payload := json_data,
      log := some
        { thread_id := dictGetStrD data "thread_id" "",
          message := "event: " ++ event_type ++ "\ndata: " ++ json_data ++ "\n\n",
          finish_reason := dictGetStrD data "finish_reason" "" } }
  | none =>
    { event := "error",
      payload := (dumps false ", " ": " [("error", FieldValue.str "Serialization failed")]).getD "",
      log := none }

/-- Execution metadata attached to a message chunk (and the small
string-keyed mappings `additional_kwargs` / `response_metadata`):
a string-valued dict read only through `.get`. -/
abbrev Metadata : Type := List (String × String)

/-- Embedding of `m.get(k)` on a metadata dict. -/
def mfind (m : Metadata) (k : String) : Option String :=
  match m.find? (fun kv => kv.1 == k) with
  | some kv => some kv.2
  | none => none

/-- Embedding of `m.get(k, default)` on a metadata dict. -/
def mget (m : Metadata) (k : String) (dflt : String) : String :=
  match mfind m k with
  | some v => v
  | none => dflt

/-- Modelled from the spec: `sanitize_args` from
`src.deep_research.utils.json_utils` (that module is absent from the
tree; only its import and call site are). Per the spec, it is a
best-effort repair-and-validate step over a possibly partial argument
fragment in which "unrepairable fragments are passed through unchanged
as raw text rather than dropped"; no claim here depends on the repair
itself, only on the fragment being passed through this total function,
so the repair is modelled as the identity pass-through. -/
def sanitize_args (s : String) : String := s

/-- A raw streaming tool-call chunk from the model
(`message_chunk.tool_call_chunks` entries): a dict read through `.get`
with defaults. -/
structure ToolCallChunk where
  name : Option String
  args : Option String
  id : Option String
  index : Option Int
  type : Option String
deriving DecidableEq

/-- Embedding of `_process_tool_call_chunks(tool_call_chunks)`: rebuild each chunk
dict with defaulted keys and sanitized `args`. -/
def _process_tool_call_chunks (tool_call_chunks : List ToolCallChunk) : List ProcessedChunk :=
  tool_call_chunks.map (fun chunk =>
    { name := chunk.name.getD "",
      args := sanitize_args (chunk.args.getD ""),
      id := chunk.id.getD "",
      index := chunk.index.getD 0,
      type := chunk.type.getD "" })

/-- A `ToolMessage` execution event (a tool result). -/
structure ToolMessageData where
  id : String
  content : String
  tool_call_id : String
  additional_kwargs : Metadata
  response_metadata : Metadata
deriving DecidableEq

/-- An `AIMessageChunk` execution event (a message fragment, possibly
carrying completed tool calls and/or streaming tool-call chunks). -/
structure AIMessageChunkData where
  id : String
  content : String
  tool_calls : List ToolCall
  tool_call_chunks : List ToolCallChunk
  additional_kwargs : Metadata
  response_metadata : Metadata
deriving DecidableEq

/-- The message-stream events `_process_message_chunk` dispatches on by
`isinstance`: a `ToolMessage` (tool result) or an `AIMessageChunk`
(message fragment). -/
inductive MessageChunk where
  | tool (m : ToolMessageData)
  | ai (m : AIMessageChunkData)
deriving DecidableEq

/-- Embedding of `message_chunk.id` (common to both classes). -/
def MessageChunk.id : MessageChunk → String
  | .tool m => m.id
  | .ai m => m.id

/-- Embedding of `message_chunk.content` (common to both classes). -/
def MessageChunk.content : MessageChunk → String
  | .tool m => m.content
  | .ai m => m.content

/-- Embedding of `message_chunk.additional_kwargs`. -/
def MessageChunk.additional_kwargs : MessageChunk → Metadata
  | .tool m => m.additional_kwargs
  | .ai m => m.additional_kwargs

/-- Embedding of `message_chunk.response_metadata`. -/
def MessageChunk.response_metadata : MessageChunk → Metadata
  | .tool m => m.response_metadata
  | .ai m => m.response_metadata

/-- Embedding of `_get_agent_name(agent, message_metadata)`: first element of the
agent-path tuple, truncated at the first `:` when one occurs
(`agent[0].split(":")[0] if ":" in agent[0] else agent[0]`); for an
empty/absent tuple, `message_metadata.get("langgraph_node", "unknown")`. -/
def _get_agent_name (agent : List String) (message_metadata : Metadata) : String :=
  match agent with
  | [] => mget message_metadata "langgraph_node" "unknown"
  | a0 :: _ =>
    if a0.data.any (fun c => c == ':') then ⟨a0.data.takeWhile (fun c => c != ':')⟩
    else a0

/-- Embedding of `_create_event_stream_message(message_chunk, message_metadata,
thread_id, agent_name)`: the base payload dict, plus
`reasoning_content` / `finish_reason` when those are present and truthy
(a Python empty string is falsy). -/
def _create_event_stream_message (message_chunk : MessageChunk)
    (message_metadata : Metadata) (thread_id agent_name : String) : EventData :=
  let base : EventData := [
    ("thread_id", .str thread_id),
    ("agent", .str agent_name),
    ("id", .str message_chunk.id),
    ("role", .str "assistant"),
    ("checkpoint_ns", .str (mget message_metadata "checkpoint_ns" "")),
    ("langgraph_node", .str (mget message_metadata "langgraph_node" "")),
    ("langgraph_path", .str (mget message_metadata "langgraph_path" "")),
    ("langgraph_step", .str (mget message_metadata "langgraph_step" "")),
    ("content", .str message_chunk.content)]
  let base := match mfind message_chunk.additional_kwargs "reasoning_content" with
    | some rc => if rc != "" then base ++ [("reasoning_content", FieldValue.str rc)] else base
    | none => base
  match mfind message_chunk.response_metadata "finish_reason" with
  | some fr => if fr != "" then base ++ [("finish_reason", FieldValue.str fr)] else base
  | none => base

/-- The (event type, payload) pair `_process_message_chunk` hands to
`_make_event` for one message chunk: a tool result maps to
`tool_call_result` (with the originating `tool_call_id`); an AI chunk
with completed tool calls maps to `tool_calls` (with the structured
calls and the sanitized chunks); one with only streaming chunks maps to
`tool_call_chunks`; otherwise `message_chunk`. -/
def _process_message_chunk_raw (message_chunk : MessageChunk)
    (message_metadata : Metadata) (thread_id : String) (agent : List String) :
    List (String × EventData) :=
  let agent_name := _get_agent_name agent message_metadata
  let event_stream_message :=
    _create_event_stream_message message_chunk message_metadata thread_id agent_name
  match message_chunk with
  | .tool m =>
    [("tool_call_result", event_stream_message ++ [("tool_call_id", FieldValue.str m.tool_call_id)])]
  | .ai m =>
    if !m.tool_calls.isEmpty then
      [("tool_calls", event_stream_message ++
        [("tool_calls", FieldValue.toolCalls m.tool_calls),
         ("tool_call_chunks", FieldValue.chunks (_process_tool_call_chunks m.tool_call_chunks))])]
    else if !m.tool_call_chunks.isEmpty then
      [("tool_call_chunks", event_stream_message ++
        [("tool_call_chunks", FieldValue.chunks (_process_tool_call_chunks m.tool_call_chunks))])]
    else
      [("message_chunk", event_stream_message)]

/-- Embedding of `_process_message_chunk(...)`: each (type, payload) pair is framed
through `_make_event` and yielded. -/
def _process_message_chunk (message_chunk : MessageChunk)
    (message_metadata : Metadata) (thread_id : String) (agent : List String) :
    List Framed :=
  (_process_message_chunk_raw message_chunk message_metadata thread_id agent).map
    (fun p => _make_event p.1 p.2)

/-- The suspension object `event_data["__interrupt__"][0]` as the
Interrupt Handler introspects it: `idAttr` is `getattr(obj, 'id',
None)`; `nsAttr` is the legacy `ns` attribute (`none` when absent);
`valueAttr` is the `value` attribute (`none` when absent); `strRepr` is
`str(obj)`; `raises` models any exception thrown while accessing the
object's attributes inside the `try` block. -/
structure Suspension where
  idAttr : Option String
  nsAttr : Option (List String)
  valueAttr : Option FieldValue
  strRepr : String
  raises : Bool
deriving DecidableEq

/-- The `(interrupt_id, interrupt_value)` pair computed by
`_create_interrupt_event`'s `try`/`except` block: explicit `id`
attribute first, then the head of a non-empty legacy `ns` list, then
the literal `"interrupt"`; the value falls back to `str(obj)`; any
introspection exception degrades to `("interrupt", str(obj))`. -/
def _interrupt_id_value (interrupt_obj : Suspension) : String × FieldValue :=
  if interrupt_obj.raises then
    ("interrupt", .str interrupt_obj.strRepr)
  else
    let interrupt_id :=
      match interrupt_obj.idAttr with
      | some i => i
      | none =>
        match interrupt_obj.nsAttr with
        | some (n :: _) => n
        | _ => "interrupt"
    (interrupt_id, interrupt_obj.valueAttr.getD (.str interrupt_obj.strRepr))

/-- Embedding of `_create_interrupt_event(thread_id, event_data)`: frame an
`interrupt` event for the first suspension of
`event_data["__interrupt__"]` (the extraction of that first element is
folded into the `Suspension` argument), with the fixed resume options
and `finish_reason: "interrupt"`. -/
def _create_interrupt_event (thread_id : String) (interrupt_obj : Suspension) : Framed :=
  let iv := _interrupt_id_value interrupt_obj
  _make_event "interrupt" [
    ("thread_id", .str thread_id),
    ("id", .str iv.1),
    ("role", .str "assistant"),
    ("content", iv.2),
    ("finish_reason", .str "interrupt"),
    ("options", .options [("Edit plan", "edit_plan"), ("Start research", "accepted")])]

/-- One `(agent, _, event_data)` triple yielded by
`graph_instance.astream(...)`: `event_data` is either an updates dict
(whose `__interrupt__` key, when present, carries the suspensions — the
non-empty tuple is modelled by its first element) or a
`(message_chunk, message_metadata)` pair from the messages stream. -/
inductive EngineData where
  | updates (interrupt : Option Suspension)
  | messages (chunk : MessageChunk) (meta : Metadata)
deriving DecidableEq

/-- One item yielded by the Workflow Engine, with its agent-path tuple. -/
structure EngineItem where
  agent : List String
  data : EngineData
deriving DecidableEq

/-- Embedding of `_stream_graph_events(graph_instance, workflow_input,
workflow_config, thread_id)` with the engine's yielded sequence made
explicit: an updates dict yields an interrupt event when the
`__interrupt__` key is present and nothing otherwise; a messages pair
is translated by `_process_message_chunk`; items are processed strictly
in order. -/
def _stream_graph_events (thread_id : String) : List EngineItem → List Framed
  | [] => []
  | item :: rest =>
    (match item.data with
      | .updates none => []
      | .updates (some interrupt_obj) => [_create_interrupt_event thread_id interrupt_obj]
      | .messages chunk meta => _process_message_chunk chunk meta thread_id item.agent)
      ++ _stream_graph_events thread_id rest

/-- An entry of the request's `messages: List[dict]`: either a JSON
dict with string-valued fields (read through `.get` / `[...]` /
`"content" in message`) or a non-dict value (which the
`isinstance(message, dict)` guard skips). -/
inductive ClientMessage where
  | dict (fields : List (String × String))
  | nonDict
deriving DecidableEq

/-- Embedding of `message["content"]` as an optional lookup: `none` where the Python
subscript would raise (`KeyError` on a dict without the key, a
`TypeError` on a non-dict). -/
def msgContent : ClientMessage → Option String
  | .dict fields =>
    match fields.find? (fun kv => kv.1 == "content") with
    | some kv => some kv.2
    | none => none
  | .nonDict => none

/-- The `isinstance(message, dict) and "content" in message` guard of
the initial-message loop. -/
def msgIsDictWithContent : ClientMessage → Bool
  | .dict fields => (fields.find? (fun kv => kv.1 == "content")).isSome
  | .nonDict => false

/-- Embedding of `_process_initial_messages(message, thread_id)`: forward one
`message_chunk` record for the user message to the side log, tagged
`"none"`, with `id` prefixed `"run--"` (falling back to a fresh
`uuid4().hex` — the drawn entropy is the explicit `uuid_hex` argument —
when the message has no `id`), serialized with `ensure_ascii=False` and
compact separators. Nothing is yielded to the network stream. -/
def _process_initial_messages (message : List (String × String))
    (thread_id uuid_hex : String) : LogRecord :=
  let json_data := (dumps false "," ":" [
    ("thread_id", .str thread_id),
    ("id", .str ("run--" ++ mget message "id" uuid_hex)),
    ("role", .str "user"),
    ("content", .str (mget message "content" ""))]).getD ""
  { thread_id := thread_id,
    message := "event: message_chunk\ndata: " ++ json_data ++ "\n\n",
    finish_reason := "none" }

/-- The Workflow Engine invocation descriptor: the fresh-input state
dict built at the top of `_astream_workflow_generator`, or a
`Command(resume=...)`. -/
inductive WorkflowInput where
  | fresh (messages : List ClientMessage) (plan_iterations : Nat)
      (final_report : String) (auto_accepted_plan : Bool)
      (enable_background_investigation : Bool) (research_topic : String)
  | resume (payload : String)
deriving DecidableEq

/-- Lines 576–592 of `src/server/app.py`: build the fresh-input dict
(`plan_iterations: 0`, `research_topic: messages[-1]["content"]` when
the list is non-empty), then replace it by `Command(resume=...)`
exactly when `auto_accepted_plan` is false and `interrupt_feedback` is
a non-empty (truthy) string; the resume payload is
`f"[{interrupt_feedback}]"` extended with a space and the last
message's content when the list is non-empty. `none` models the
subscript raising on a last message without `content`. -/
def _prepare_workflow_input (messages : List ClientMessage)
    (auto_accepted_plan : Bool) (interrupt_feedback : String)
    (enable_background_investigation : Bool) : Option WorkflowInput := do
  let research_topic ←
    match messages.getLast? with
    | none => some ""
    | some m => msgContent m
  if !auto_accepted_plan && interrupt_feedback != "" then
    match messages.getLast? with
    | none => some (.resume ("[" ++ interrupt_feedback ++ "]"))
    | some m => do
      let c ← msgContent m
      some (.resume ("[" ++ interrupt_feedback ++ "]" ++ " " ++ c))
  else
    some (.fresh messages 0 "" auto_accepted_plan enable_background_investigation research_topic)

/-- Python's `str.startswith`: character-sequence prefix. -/
def pyStartsWith (s pre : String) : Bool :=
  pre.data.isPrefixOf s.data

/-- The three checkpoint configurations the generator can stream
under. -/
inductive CheckpointBackend where
  | postgres
  | mongodb
  | volatile
deriving DecidableEq

/-- Lines 607–646 of `src/server/app.py`: when the
`LANGGRAPH_CHECKPOINT_SAVER` flag is set and the
`LANGGRAPH_CHECKPOINT_DB_URL` connection string is non-empty, a
`postgresql://` URL attaches the Postgres checkpointer and a
`mongodb://` URL attaches the MongoDB checkpointer (two sequential
`if`s, so a URL matching neither scheme streams under no backend at
all); otherwise the graph streams with volatile in-process state. The
result lists the backends the stream loop runs under, in program
order. -/
def _checkpoint_backends (checkpoint_saver : Bool) (checkpoint_url : String) :
    List CheckpointBackend :=
  if checkpoint_saver && checkpoint_url != "" then
    (if pyStartsWith checkpoint_url "postgresql://" then [.postgres] else []) ++
      (if pyStartsWith checkpoint_url "mongodb://" then [.mongodb] else [])
  else
    [.volatile]

/-- The observable output of one `_astream_workflow_generator` call:
the per-thread side log records forwarded to `chat_stream_message`, in
order, and the SSE strings yielded to the network transport, in
order. -/
structure GeneratorOutput where
  log : List LogRecord
  net : List String
deriving DecidableEq

/-- Embedding of `_astream_workflow_generator(...)` (observable behaviour): log each
dict-with-`content` initial message via `_process_initial_messages`
(nothing is yielded for them), then run the graph stream under the
selected checkpoint backend(s), yielding each framed event's SSE text
and forwarding its side-log record. The opaque Workflow Engine's
yielded sequence is the explicit `engine_items` argument, and the
workflow input handed to it is modelled by `_prepare_workflow_input`;
the checkpoint settings read from the environment are the explicit
`checkpoint_saver` / `checkpoint_url` arguments. -/
def _astream_workflow_generator (messages : List ClientMessage)
    (thread_id uuid_hex : String) (checkpoint_saver : Bool)
    (checkpoint_url : String) (engine_items : List EngineItem) : GeneratorOutput :=
  let initial_logs := messages.filterMap (fun m =>
    match m with
    | .dict fields =>
      if (fields.find? (fun kv => kv.1 == "content")).isSome then
        some (_process_initial_messages fields thread_id uuid_hex)
      else none
    | .nonDict => none)
  let streamed := (_checkpoint_backends checkpoint_saver checkpoint_url).flatMap
    (fun _ => _stream_graph_events thread_id engine_items)
  { log := initial_logs ++ streamed.filterMap Framed.log,
    net := streamed.map Framed.sse }

/-! ### Helper lemmas -/

theorem mapOpt_cons (f : α → Option β) (x : α) (xs : List α) :
    mapOpt f (x :: xs) =
      match f x, mapOpt f xs with
      | some y, some ys => some (y :: ys)
      | _, _ => none := rfl

theorem mapOpt_isSome (f : α → Option β) (l : List α)
    (h : ∀ x ∈ l, (f x).isSome) : (mapOpt f l).isSome := by
  induction l with
  | nil => simp [mapOpt]
  | cons x xs ih =>
    have hx := h x (by simp)
    have hxs := ih (fun y hy => h y (by simp [hy]))
    rw [mapOpt_cons]
    obtain ⟨y, hy⟩ := Option.isSome_iff_exists.mp hx
    obtain ⟨ys, hys⟩ := Option.isSome_iff_exists.mp hxs
    simp [hy, hys]

theorem mapOpt_append (f : α → Option β) (l₁ l₂ : List α) :
    mapOpt f (l₁ ++ l₂) =
      (mapOpt f l₁).bind (fun xs => (mapOpt f l₂).map (fun ys => xs ++ ys)) := by
  induction l₁ with
  | nil => cases h2 : mapOpt f l₂ <;> simp [mapOpt, h2]
  | cons x xs ih =>
    simp only [List.cons_append, mapOpt_cons, ih]
    cases f x <;> cases mapOpt f xs <;> cases mapOpt f l₂ <;> rfl

theorem FieldValue.render_isSome (ea : Bool) (isep ksep : String) (v : FieldValue)
    (h : v ≠ FieldValue.nonSerializable) : (v.render ea isep ksep).isSome := by
  cases v <;> simp_all [FieldValue.render]

theorem dumps_isSome (ea : Bool) (isep ksep : String) (d : EventData)
    (h : ∀ kv ∈ d, kv.2 ≠ FieldValue.nonSerializable) :
    ∃ j, dumps ea isep ksep d = some j := by
  have hm : (mapOpt (renderItem ea isep ksep) d).isSome := by
    refine mapOpt_isSome _ _ (fun kv hkv => ?_)
    have := FieldValue.render_isSome ea isep ksep kv.2 (h kv hkv)
    simpa [renderItem, Option.isSome_map] using this
  obtain ⟨parts, hp⟩ := Option.isSome_iff_exists.mp hm
  exact ⟨"\x7b" ++ joinSep isep parts ++ "\x7d", by simp [dumps, hp]⟩

theorem find?_decomp {p : α → Bool} {l : List α} {a : α} (h : l.find? p = some a) :
    ∃ l₁ l₂, l = l₁ ++ a :: l₂ := by
  induction l with
  | nil => simp [List.find?] at h
  | cons x xs ih =>
    rw [List.find?] at h
    cases hp : p x with
    | true => rw [hp] at h; simp at h; exact ⟨[], xs, by simp [h]⟩
    | false =>
      rw [hp] at h; simp at h
      obtain ⟨l₁, l₂, rfl⟩ := ih h
      exact ⟨x :: l₁, l₂, by simp⟩

theorem joinSep_decomp (sep x : String) (l₁ l₂ : List String) :
    ∃ pre post, joinSep sep (l₁ ++ x :: l₂) = pre ++ x ++ post := by
  induction l₁ with
  | nil =>
    cases l₂ with
    | nil => exact ⟨"", "", by simp [joinSep, String.empty_append, String.append_empty]⟩
    | cons y ys =>
      exact ⟨"", sep ++ joinSep sep (y :: ys), by
        simp [joinSep, String.empty_append, String.append_assoc]⟩
  | cons a l₁ ih =>
    obtain ⟨pre, post, hp⟩ := ih
    refine ⟨a ++ sep ++ pre, post, ?_⟩
    have hcons : ∃ b bs, l₁ ++ x :: l₂ = b :: bs := by
      cases l₁ with
      | nil => exact ⟨x, l₂, rfl⟩
      | cons c cs => exact ⟨c, cs ++ x :: l₂, by simp⟩
    obtain ⟨b, bs, hb⟩ := hcons
    show joinSep sep (a :: (l₁ ++ x :: l₂)) = a ++ sep ++ pre ++ x ++ post
    rw [hb]
    show a ++ sep ++ joinSep sep (b :: bs) = a ++ sep ++ pre ++ x ++ post
    rw [← hb, hp]
    simp [String.append_assoc]

theorem dictGet_append (a b : EventData) (k : String) :
    dictGet (a ++ b) k = ((a.find? (fun kv => kv.1 == k)).or (b.find? (fun kv => kv.1 == k))).map
      (fun kv => kv.2) := by
  simp [dictGet, List.find?_append]
  cases a.find? (fun kv => kv.1 == k) <;> cases b.find? (fun kv => kv.1 == k) <;> rfl

theorem dictGet_of_find?_none (d : EventData) (k : String)
    (h : d.find? (fun kv => kv.1 == k) = none) : dictGet d k = none := by
  simp [dictGet, h]

theorem dictGet_cons (kv : String × FieldValue) (d : EventData) (k : String) :
    dictGet (kv :: d) k = if kv.1 == k then some kv.2 else dictGet d k := by
  by_cases hk : kv.1 = k
  · simp [dictGet, List.find?, hk]
  · have hb : (kv.1 == k) = false := by simpa using hk
    simp [dictGet, List.find?, hb]

theorem dictPop_cons (kv : String × FieldValue) (d : EventData) (k : String) :
    dictPop (kv :: d) k = if kv.1 == k then dictPop d k else kv :: dictPop d k := by
  by_cases hk : kv.1 = k <;> simp [dictPop, List.filter_cons, bne, hk]

theorem dictGet_pop_self (d : EventData) (k : String) :
    dictGet (dictPop d k) k = none := by
  induction d with
  | nil => rfl
  | cons kv d ih =>
    rw [dictPop_cons]
    by_cases hk : kv.1 = k
    · simpa [hk] using ih
    · rw [if_neg (by simpa using hk), dictGet_cons, if_neg (by simpa using hk)]
      exact ih

theorem dictGet_pop_ne (d : EventData) (k k' : String) (h : k' ≠ k) :
    dictGet (dictPop d k) k' = dictGet d k' := by
  induction d with
  | nil => rfl
  | cons kv d ih =>
    rw [dictPop_cons, dictGet_cons]
    by_cases hk : kv.1 = k
    · have hne : (kv.1 == k') = false := by
        simp only [beq_eq_false_iff_ne, ne_eq]
        exact fun hq => h (hq ▸ hk)
      rw [if_pos (by simpa using hk), ih, hne]
      simp
    · rw [if_neg (by simpa using hk), dictGet_cons]
      by_cases hq : kv.1 = k'
      · simp [hq]
      · simp only [show (kv.1 == k') = false by simpa using hq]
        simpa using ih

theorem takeWhile_append_first_fail {p : α → Bool} (l₁ l₂ : List α) (a : α)
    (h : ∀ x ∈ l₁, p x = true) (ha : p a = false) :
    (l₁ ++ a :: l₂).takeWhile p = l₁ := by
  induction l₁ with
  | nil => simp [List.takeWhile, ha]
  | cons x xs ih =>
    have hx := h x (by simp)
    simp only [List.cons_append, List.takeWhile, hx]
    show x :: List.takeWhile p (xs ++ a :: l₂) = x :: xs
    rw [ih (fun y hy => h y (by simp [hy]))]

theorem escapeChar_nonascii (ch : Char) (h : 128 ≤ ch.toNat) :
    escapeChar false ch = String.singleton ch := by
  have h1 : ch ≠ '"' := by rintro rfl; revert h; decide
  have h2 : ch ≠ '\\' := by rintro rfl; revert h; decide
  have h3 : ch ≠ '\n' := by rintro rfl; revert h; decide
  have h4 : ch ≠ '\t' := by rintro rfl; revert h; decide
  have h5 : ch ≠ '\r' := by rintro rfl; revert h; decide
  have h6 : ¬ ch.toNat = 8 := by omega
  have h7 : ¬ ch.toNat = 12 := by omega
  have h8 : ¬ ch.toNat < 32 := by omega
  simp [escapeChar, h1, h2, h3, h4, h5, h6, h7, h8]

theorem escapeChar_plain (ch : Char) (h1 : ch ≠ '"') (h2 : ch ≠ '\\')
    (h3 : 32 ≤ ch.toNat) : escapeChar false ch = String.singleton ch := by
  have e3 : ch ≠ '\n' := by rintro rfl; revert h3; decide
  have e4 : ch ≠ '\t' := by rintro rfl; revert h3; decide
  have e5 : ch ≠ '\r' := by rintro rfl; revert h3; decide
  have e6 : ¬ ch.toNat = 8 := by omega
  have e7 : ¬ ch.toNat = 12 := by omega
  have e8 : ¬ ch.toNat < 32 := by omega
  simp [escapeChar, h1, h2, e3, e4, e5, e6, e7, e8]

theorem strConcat_singletons (l : List Char) :
    strConcat (l.map String.singleton) = String.mk l := by
  induction l with
  | nil => rfl
  | cons c cs ih =>
    show String.singleton c ++ strConcat (cs.map String.singleton) = String.mk (c :: cs)
    rw [ih]
    apply String.ext
    simp [String.singleton, String.data_append]

theorem escapeBody_plain (c : String)
    (h : ∀ ch ∈ c.data, ch ≠ '"' ∧ ch ≠ '\\' ∧ 32 ≤ ch.toNat) :
    escapeBody false c = c := by
  have : c.data.map (escapeChar false) = c.data.map String.singleton := by
    apply List.map_congr_left
    intro ch hch
    exact escapeChar_plain ch (h ch hch).1 (h ch hch).2.1 (h ch hch).2.2
  rw [escapeBody, this, strConcat_singletons]

theorem strConcat_append (l₁ l₂ : List String) :
    strConcat (l₁ ++ l₂) = strConcat l₁ ++ strConcat l₂ := by
  induction l₁ with
  | nil => simp [strConcat, String.empty_append]
  | cons x xs ih =>
    show x ++ strConcat (xs ++ l₂) = x ++ strConcat xs ++ strConcat l₂
    rw [ih, String.append_assoc]

theorem escapeBody_append (ea : Bool) (s t : String) :
    escapeBody ea (s ++ t) = escapeBody ea s ++ escapeBody ea t := by
  rw [escapeBody, escapeBody, escapeBody, String.data_append, List.map_append,
    strConcat_append]

theorem pyStartsWith_append (a b : String) : pyStartsWith (a ++ b) a = true := by
  rw [pyStartsWith, String.data_append]
  exact List.isPrefixOf_iff_prefix.mpr (List.prefix_append a.data b.data)

theorem pyStartsWith_ne_empty (s pre : String) (h : pyStartsWith s pre = true)
    (hp : pre ≠ "") : s ≠ "" := by
  intro hs
  subst hs
  rw [pyStartsWith] at h
  have := List.isPrefixOf_iff_prefix.mp h
  have hnil : pre.data = [] := List.prefix_nil.mp this
  exact hp (String.ext hnil)

theorem not_pyStartsWith_mongodb (url : String)
    (h : pyStartsWith url "postgresql://" = true) :
    pyStartsWith url "mongodb://" = false := by
  by_contra hc
  have hm : pyStartsWith url "mongodb://" = true := by
    cases hb : pyStartsWith url "mongodb://"
    · exact absurd hb hc
    · rfl
  have h1 := List.isPrefixOf_iff_prefix.mp h
  have h2 := List.isPrefixOf_iff_prefix.mp hm
  have : ("mongodb://".data : List Char) <+: "postgresql://".data :=
    List.prefix_of_prefix_length_le h2 h1 (by decide)
  revert this
  decide

theorem not_pyStartsWith_postgres (url : String)
    (h : pyStartsWith url "mongodb://" = true) :
    pyStartsWith url "postgresql://" = false := by
  by_contra hc
  have hm : pyStartsWith url "postgresql://" = true := by
    cases hb : pyStartsWith url "postgresql://"
    · exact absurd hb hc
    · rfl
  have h1 := List.isPrefixOf_iff_prefix.mp h
  have h2 := List.isPrefixOf_iff_prefix.mp hm
  have : ("mongodb://".data : List Char) <+: "postgresql://".data :=
    List.prefix_of_prefix_length_le h1 h2 (by decide)
  revert this
  decide

theorem _make_event_serializable (t : String) (data : EventData)
    (h : ∀ kv ∈ data, kv.2 ≠ FieldValue.nonSerializable) :
    (_make_event t data).event = t ∧ (_make_event t data).log.isSome := by
  have hpop : ∀ kv ∈ dictPop data "content", kv.2 ≠ FieldValue.nonSerializable :=
    fun kv hkv => h kv (List.mem_of_mem_filter hkv)
  by_cases hc : dictGet data "content" = some (.str "")
  · obtain ⟨j, hj⟩ := dumps_isSome false ", " ": " (dictPop data "content") hpop
    simp [_make_event, hc, hj]
  · obtain ⟨j, hj⟩ := dumps_isSome false ", " ": " data h
    simp [_make_event, hc, hj]

/-! ### Claim theorems -/

/-- C7: for every sequence of ExecutionEvents yielded by the Workflow
Engine in one streaming call, the WireEvents emitted to the client
appear in exactly the order of the corresponding input events: the
events translated from any one engine item sit between all events of
earlier items and all events of later items, with nothing buffered,
reordered or dropped across items. -/
theorem wire_event_order_preserved (thread_id : String)
    (l₁ : List EngineItem) (e : EngineItem) (l₂ : List EngineItem) :
    _stream_graph_events thread_id (l₁ ++ e :: l₂) =
      _stream_graph_events thread_id l₁ ++ _stream_graph_events thread_id [e] ++
        _stream_graph_events thread_id l₂ := by
  have happ : ∀ la lb : List EngineItem,
      _stream_graph_events thread_id (la ++ lb) =
        _stream_graph_events thread_id la ++ _stream_graph_events thread_id lb := by
    intro la lb
    induction la with
    | nil => rfl
    | cons a l ih =>
      simp only [List.cons_append, _stream_graph_events, List.append_eq, ih,
        List.append_assoc]
  have h2 : _stream_graph_events thread_id (e :: l₂) =
      _stream_graph_events thread_id [e] ++ _stream_graph_events thread_id l₂ :=
    happ [e] l₂
  rw [happ l₁ (e :: l₂), h2, List.append_assoc]

/-- C5: checkpoint backend selection is a function of the
persist-checkpoints flag and the connection string alone: with the flag
set and a non-empty URL, a `postgresql://` URL selects exactly the
relational backend and a `mongodb://` URL exactly the document-store
backend for the streaming call; with the flag unset or the URL empty,
the stream runs once with volatile in-process-only state. -/
theorem checkpoint_backend_selection (saver : Bool) (url : String) :
    (saver = true → pyStartsWith url "postgresql://" = true →
      _checkpoint_backends saver url = [CheckpointBackend.postgres]) ∧
    (saver = true → pyStartsWith url "mongodb://" = true →
      _checkpoint_backends saver url = [CheckpointBackend.mongodb]) ∧
    (saver = false ∨ url = "" →
      _checkpoint_backends saver url = [CheckpointBackend.volatile]) := by
  refine ⟨?_, ?_, ?_⟩
  · intro hs hp
    subst hs
    have hne : url ≠ "" := pyStartsWith_ne_empty url "postgresql://" hp (by decide)
    have hbne : (url != "") = true := by simpa [bne] using hne
    have hm := not_pyStartsWith_mongodb url hp
    simp [_checkpoint_backends, hbne, hp, hm]
  · intro hs hp
    subst hs
    have hne : url ≠ "" := pyStartsWith_ne_empty url "mongodb://" hp (by decide)
    have hbne : (url != "") = true := by simpa [bne] using hne
    have hm := not_pyStartsWith_postgres url hp
    simp [_checkpoint_backends, hbne, hp, hm]
  · rintro (hs | hu)
    · subst hs; simp [_checkpoint_backends]
    · subst hu; simp [_checkpoint_backends]

/-- C5 witness: at concrete settings the three branches produce the
relational, document-store and volatile configurations. -/
theorem checkpoint_backend_selection_witness :
    _checkpoint_backends true "postgresql://cp" = [CheckpointBackend.postgres] ∧
    _checkpoint_backends true "mongodb://cp" = [CheckpointBackend.mongodb] ∧
    _checkpoint_backends false "postgresql://cp" = [CheckpointBackend.volatile] :=
  ⟨(checkpoint_backend_selection true "postgresql://cp").1 rfl (by decide),
   (checkpoint_backend_selection true "mongodb://cp").2.1 rfl (by decide),
   (checkpoint_backend_selection false "postgresql://cp").2.2 (Or.inl rfl)⟩

/-- C9: if JSON serialization of a WireEvent's data fails
(non-serializable payload), the Stream Framer returns a substitute
`error` event with the fixed payload `{"error": "Serialization failed"}`
instead of propagating the exception, and forwards nothing for it. -/
theorem serialization_failure_substitute_event (t : String) (data : EventData)
    (h : dumps false ", " ": "
      (if dictGet data "content" = some (.str "") then dictPop data "content" else data) = none) :
    _make_event t data =
      { event := "error",
        payload := "\x7b\"error\": \"Serialization failed\"\x7d",
        log := none } := by
  by_cases hc : dictGet data "content" = some (.str "")
  · rw [if_pos hc] at h
    simp only [_make_event, if_pos hc, h]
    rfl
  · rw [if_neg hc] at h
    simp only [_make_event, if_neg hc, h]
    rfl

/-- C9 witness: a payload with a non-serializable value produces the
substitute error event. -/
theorem serialization_failure_substitute_event_witness :
    _make_event "tool_calls"
        [("thread_id", FieldValue.str "t"), ("payload", FieldValue.nonSerializable)] =
      { event := "error",
        payload := "\x7b\"error\": \"Serialization failed\"\x7d",
        log := none } :=
  serialization_failure_substitute_event "tool_calls"
    [("thread_id", FieldValue.str "t"), ("payload", FieldValue.nonSerializable)] (by decide)

/-- C4 counterexample: the claim says every framed record reaches the
per-thread side log regardless of whether serialization succeeds; but
on a non-serializable payload `_make_event` returns the substitute
framed error record while forwarding nothing to the side log. -/
theorem side_log_skipped_on_serialization_failure :
    (_make_event "message_chunk"
        [("thread_id", FieldValue.str "t1"), ("finish_reason", FieldValue.str "stop"),
         ("content", FieldValue.nonSerializable)]).log = none ∧
    (_make_event "message_chunk"
        [("thread_id", FieldValue.str "t1"), ("finish_reason", FieldValue.str "stop"),
         ("content", FieldValue.nonSerializable)]).sse =
      "event: error\ndata: \x7b\"error\": \"Serialization failed\"\x7d\n\n" := by
  constructor <;> decide

/-- C4 amended: the framed record is forwarded to the per-thread side
log (keyed by the payload's `thread_id`, tagged with its
`finish_reason` or an empty tag) exactly when JSON serialization of the
event succeeds; on serialization failure nothing is forwarded. -/
theorem side_log_iff_serialization_success (t : String) (data : EventData) :
    ((_make_event t data).log.isSome ↔
      (dumps false ", " ": "
        (if dictGet data "content" = some (.str "") then dictPop data "content" else data)).isSome) ∧
    (∀ r, (_make_event t data).log = some r →
      r.message = (_make_event t data).sse ∧
      r.thread_id = dictGetStrD data "thread_id" "" ∧
      r.finish_reason = dictGetStrD data "finish_reason" "") := by
  have hth : dictGetStrD (dictPop data "content") "thread_id" "" =
      dictGetStrD data "thread_id" "" := by
    rw [dictGetStrD, dictGetStrD, dictGet_pop_ne data "content" "thread_id" (by decide)]
  have hfr : dictGetStrD (dictPop data "content") "finish_reason" "" =
      dictGetStrD data "finish_reason" "" := by
    rw [dictGetStrD, dictGetStrD, dictGet_pop_ne data "content" "finish_reason" (by decide)]
  by_cases hc : dictGet data "content" = some (.str "")
  · rw [if_pos hc]
    cases hd : dumps false ", " ": " (dictPop data "content") with
    | none => simp only [_make_event, if_pos hc, hd]; simp
    | some j =>
      simp only [_make_event, if_pos hc, hd]
      refine ⟨by simp, fun r hr => ?_⟩
      simp only [Option.some_inj] at hr
      subst hr
      exact ⟨rfl, hth, hfr⟩
  · rw [if_neg hc]
    cases hd : dumps false ", " ": " data with
    | none => simp only [_make_event, if_neg hc, hd]; simp
    | some j =>
      simp only [_make_event, if_neg hc, hd]
      refine ⟨by simp, fun r hr => ?_⟩
      simp only [Option.some_inj] at hr
      subst hr
      exact ⟨rfl, rfl, rfl⟩

/-- C4 amended, witness: on a serializable payload the record is
forwarded and carries the framed text, the thread id and the finish
reason tag. -/
theorem side_log_iff_serialization_success_witness :
    (_make_event "message_chunk"
        [("thread_id", FieldValue.str "t"), ("content", FieldValue.str "hi")]).log.isSome ∧
    ∃ r, (_make_event "message_chunk"
        [("thread_id", FieldValue.str "t"), ("content", FieldValue.str "hi")]).log = some r ∧
      r.message = (_make_event "message_chunk"
        [("thread_id", FieldValue.str "t"), ("content", FieldValue.str "hi")]).sse ∧
      r.thread_id = "t" := by
  have h := side_log_iff_serialization_success "message_chunk"
    [("thread_id", FieldValue.str "t"), ("content", FieldValue.str "hi")]
  refine ⟨h.1.mpr (by decide), ?_⟩
  refine ⟨{ thread_id := "t",
            message := "event: message_chunk\ndata: \x7b\"thread_id\": \"t\", \"content\": \"hi\"\x7d\n\n",
            finish_reason := "" }, by decide, ?_, ?_⟩
  · exact (h.2 _ (by decide)).1
  · rfl

/-- C8: the agent name is resolved by precedence: the first element of
a non-empty engine-supplied agent-path tuple, truncated to the
substring before the first `:` when one occurs; otherwise the
`langgraph_node` field of the execution metadata; otherwise the literal
`"unknown"`. -/
theorem agent_name_resolution (agent : List String) (md : Metadata) :
    (agent = [] →
      (∀ v, mfind md "langgraph_node" = some v → _get_agent_name agent md = v) ∧
      (mfind md "langgraph_node" = none → _get_agent_name agent md = "unknown")) ∧
    (∀ a0 rest, agent = a0 :: rest →
      ((':' ∉ a0.data) → _get_agent_name agent md = a0) ∧
      (∀ pre post, a0.data = pre ++ ':' :: post → ':' ∉ pre →
        _get_agent_name agent md = String.mk pre)) := by
  constructor
  · rintro rfl
    constructor
    · intro v hv
      simp [_get_agent_name, mget, hv]
    · intro hv
      simp [_get_agent_name, mget, hv]
  · rintro a0 rest rfl
    constructor
    · intro hno
      have hany : (a0.data.any (fun c => c == ':')) = false := by
        rw [Bool.eq_false_iff]
        intro hx
        obtain ⟨c, hc, hcq⟩ := List.any_eq_true.mp hx
        exact hno ((eq_of_beq hcq) ▸ hc)
      simp [_get_agent_name, hany]
    · intro pre post hsplit hnopre
      have hany : (a0.data.any (fun c => c == ':')) = true := by
        refine List.any_eq_true.mpr ⟨':', ?_, by simp⟩
        rw [hsplit]
        simp
      have htake : a0.data.takeWhile (fun c => c != ':') = pre := by
        rw [hsplit]
        refine takeWhile_append_first_fail pre post ':' ?_ (by simp)
        intro x hx
        have : x ≠ ':' := fun hq => hnopre (hq ▸ hx)
        simpa [bne] using this
      simp [_get_agent_name, hany, htake]

/-- C8 witness: a first agent-path element with a colon is truncated;
the metadata and literal fallbacks fire when the tuple is empty. -/
theorem agent_name_resolution_witness :
    _get_agent_name ["researcher:worker"] [] = "researcher" ∧
    _get_agent_name [] [("langgraph_node", "planner")] = "planner" ∧
    _get_agent_name [] [] = "unknown" := by
  refine ⟨?_, ?_, ?_⟩
  · have h := ((agent_name_resolution ["researcher:worker"] []).2
      "researcher:worker" [] rfl).2 "researcher".data "worker".data (by decide) (by decide)
    exact h.trans (by decide)
  · exact ((agent_name_resolution [] [("langgraph_node", "planner")]).1 rfl).1
      "planner" (by decide)
  · exact ((agent_name_resolution [] []).1 rfl).2 (by decide)

/-- C2: the engine input is a resume command exactly when
`auto_accepted_plan` is false and `interrupt_feedback` is non-empty, in
which case the payload is `"[<interrupt_feedback>] <last message
content>"` (just `"[<interrupt_feedback>]"` when the message list is
empty); in every other case it is a fresh-input descriptor carrying the
initial messages and `plan_iterations = 0`. -/
theorem resume_vs_fresh_selection (messages : List ClientMessage)
    (auto_accepted_plan : Bool) (interrupt_feedback : String) (ebi : Bool)
    (hlast : ∀ m, messages.getLast? = some m → (msgContent m).isSome) :
    (auto_accepted_plan = false → interrupt_feedback ≠ "" →
      _prepare_workflow_input messages auto_accepted_plan interrupt_feedback ebi =
        some (.resume (match messages.getLast? with
          | none => "[" ++ interrupt_feedback ++ "]"
          | some m => "[" ++ interrupt_feedback ++ "]" ++ " " ++ (msgContent m).getD ""))) ∧
    ((auto_accepted_plan = true ∨ interrupt_feedback = "") →
      ∃ topic, _prepare_workflow_input messages auto_accepted_plan interrupt_feedback ebi =
        some (.fresh messages 0 "" auto_accepted_plan ebi topic)) := by
  have hbr : ∀ fb : String, fb ≠ "" → (fb != "") = true := by
    intro fb h; simpa [bne] using h
  constructor
  · intro ha hf
    subst ha
    cases hml : messages.getLast? with
    | none =>
      simp [_prepare_workflow_input, hml, hbr interrupt_feedback hf]
    | some m =>
      obtain ⟨c, hc⟩ := Option.isSome_iff_exists.mp (hlast m hml)
      simp [_prepare_workflow_input, hml, hc, hbr interrupt_feedback hf]
  · intro hother
    cases hml : messages.getLast? with
    | none =>
      rcases hother with ha | hf
      · subst ha
        exact ⟨"", by simp [_prepare_workflow_input, hml]⟩
      · subst hf
        exact ⟨"", by simp [_prepare_workflow_input, hml]⟩
    | some m =>
      obtain ⟨c, hc⟩ := Option.isSome_iff_exists.mp (hlast m hml)
      rcases hother with ha | hf
      · subst ha
        exact ⟨c, by simp [_prepare_workflow_input, hml, hc]⟩
      · subst hf
        exact ⟨c, by simp [_prepare_workflow_input, hml, hc]⟩

/-- C2 witness: with `auto_accepted_plan=false`,
`interrupt_feedback="accepted"` and last user message `"go"` the engine
input is a resume command with payload `"[accepted] go"`; flipping
`auto_accepted_plan` yields a fresh-input descriptor with the messages
and zero plan iterations. -/
theorem resume_vs_fresh_selection_witness :
    _prepare_workflow_input [ClientMessage.dict [("role", "user"), ("content", "go")]]
        false "accepted" true = some (.resume "[accepted] go") ∧
    ∃ topic,
      _prepare_workflow_input [ClientMessage.dict [("role", "user"), ("content", "go")]]
        true "accepted" true =
      some (.fresh [ClientMessage.dict [("role", "user"), ("content", "go")]] 0 "" true true topic) := by
  constructor
  · have h := (resume_vs_fresh_selection
      [ClientMessage.dict [("role", "user"), ("content", "go")]] false "accepted" true
      (by intro m hm; simp at hm; subst hm; decide)).1 rfl (by decide)
    exact h.trans (by decide)
  · exact (resume_vs_fresh_selection
      [ClientMessage.dict [("role", "user"), ("content", "go")]] true "accepted" true
      (by intro m hm; simp at hm; subst hm; decide)).2 (Or.inl rfl)

/-- C3: the interrupt event's id follows the precedence explicit
suspension identifier → first entry of a non-empty legacy namespace
list → literal `"interrupt"`; and an exception while introspecting the
suspension degrades to the fallback id with the stringified content,
still producing an `interrupt` wire event rather than aborting. -/
theorem interrupt_id_precedence (thread_id : String) (s : Suspension) :
    (∀ i, s.raises = false → s.idAttr = some i → (_interrupt_id_value s).1 = i) ∧
    (∀ n l, s.raises = false → s.idAttr = none → s.nsAttr = some (n :: l) →
      (_interrupt_id_value s).1 = n) ∧
    (s.raises = false → s.idAttr = none → (s.nsAttr = none ∨ s.nsAttr = some []) →
      (_interrupt_id_value s).1 = "interrupt") ∧
    (s.raises = true →
      _interrupt_id_value s = ("interrupt", FieldValue.str s.strRepr) ∧
      (_create_interrupt_event thread_id s).event = "interrupt" ∧
      (_create_interrupt_event thread_id s).log.isSome) := by
  refine ⟨?_, ?_, ?_, ?_⟩
  · intro i hr hid
    simp [_interrupt_id_value, hr, hid]
  · intro n l hr hid hns
    simp [_interrupt_id_value, hr, hid, hns]
  · intro hr hid hns
    rcases hns with hns | hns <;> simp [_interrupt_id_value, hr, hid, hns]
  · intro hr
    have hiv : _interrupt_id_value s = ("interrupt", FieldValue.str s.strRepr) := by
      simp [_interrupt_id_value, hr]
    refine ⟨hiv, ?_⟩
    have hser := _make_event_serializable "interrupt"
      [("thread_id", .str thread_id),
       ("id", .str (_interrupt_id_value s).1),
       ("role", .str "assistant"),
       ("content", (_interrupt_id_value s).2),
       ("finish_reason", .str "interrupt"),
       ("options", .options [("Edit plan", "edit_plan"), ("Start research", "accepted")])]
      (by
        intro kv hkv
        rw [hiv] at hkv
        simp only [List.mem_cons, List.not_mem_nil, or_false] at hkv
        rcases hkv with rfl | rfl | rfl | rfl | rfl | rfl <;> simp)
    exact ⟨hser.1, hser.2⟩

/-- C3 witness: a suspension whose introspection raises yields the
fallback id `"interrupt"` with the stringified content, and the framed
event is still an `interrupt` event. -/
theorem interrupt_id_precedence_witness :
    _interrupt_id_value
        { idAttr := none, nsAttr := none, valueAttr := none,
          strRepr := "boom", raises := true } =
      ("interrupt", FieldValue.str "boom") ∧
    (_create_interrupt_event "t"
        { idAttr := none, nsAttr := none, valueAttr := none,
          strRepr := "boom", raises := true }).event = "interrupt" ∧
    (_interrupt_id_value
        { idAttr := some "plan_review", nsAttr := some ["legacy"], valueAttr := none,
          strRepr := "x", raises := false }).1 = "plan_review" ∧
    (_interrupt_id_value
        { idAttr := none, nsAttr := some ["legacy", "other"], valueAttr := none,
          strRepr := "x", raises := false }).1 = "legacy" ∧
    (_interrupt_id_value
        { idAttr := none, nsAttr := none, valueAttr := none,
          strRepr := "x", raises := false }).1 = "interrupt" := by
  have h1 := (interrupt_id_precedence "t"
    { idAttr := none, nsAttr := none, valueAttr := none,
      strRepr := "boom", raises := true }).2.2.2 rfl
  refine ⟨h1.1, h1.2.1, ?_, ?_, ?_⟩
  · exact (interrupt_id_precedence "t"
      { idAttr := some "plan_review", nsAttr := some ["legacy"], valueAttr := none,
        strRepr := "x", raises := false }).1 "plan_review" rfl rfl
  · exact (interrupt_id_precedence "t"
      { idAttr := none, nsAttr := some ["legacy", "other"], valueAttr := none,
        strRepr := "x", raises := false }).2.1 "legacy" ["other"] rfl rfl rfl
  · exact (interrupt_id_precedence "t"
      { idAttr := none, nsAttr := none, valueAttr := none,
        strRepr := "x", raises := false }).2.2.1 rfl rfl (Or.inl rfl)

theorem esm_decomp (chunk : MessageChunk) (meta : Metadata) (tid an : String) :
    ∃ ext : EventData,
      _create_event_stream_message chunk meta tid an =
        [("thread_id", .str tid), ("agent", .str an), ("id", .str chunk.id),
         ("role", .str "assistant"),
         ("checkpoint_ns", .str (mget meta "checkpoint_ns" "")),
         ("langgraph_node", .str (mget meta "langgraph_node" "")),
         ("langgraph_path", .str (mget meta "langgraph_path" "")),
         ("langgraph_step", .str (mget meta "langgraph_step" "")),
         ("content", .str chunk.content)] ++ ext ∧
      ∀ kv ∈ ext, kv.1 = "reasoning_content" ∨ kv.1 = "finish_reason" := by
  rcases h1 : mfind chunk.additional_kwargs "reasoning_content" with _ | rc <;>
    rcases h2 : mfind chunk.response_metadata "finish_reason" with _ | fr
  · exact ⟨[], by simp [_create_event_stream_message, h1, h2], by simp⟩
  · by_cases hfr : (fr != "") = true
    · exact ⟨[("finish_reason", FieldValue.str fr)],
        by simp [_create_event_stream_message, h1, h2, hfr], by simp⟩
    · exact ⟨[], by simp [_create_event_stream_message, h1, h2, hfr], by simp⟩
  · by_cases hrc : (rc != "") = true
    · exact ⟨[("reasoning_content", FieldValue.str rc)],
        by simp [_create_event_stream_message, h1, h2, hrc], by simp⟩
    · exact ⟨[], by simp [_create_event_stream_message, h1, h2, hrc], by simp⟩
  · by_cases hrc : (rc != "") = true <;> by_cases hfr : (fr != "") = true
    · exact ⟨[("reasoning_content", FieldValue.str rc), ("finish_reason", FieldValue.str fr)],
        by simp [_create_event_stream_message, h1, h2, hrc, hfr], by simp⟩
    · exact ⟨[("reasoning_content", FieldValue.str rc)],
        by simp [_create_event_stream_message, h1, h2, hrc, hfr], by simp⟩
    · exact ⟨[("finish_reason", FieldValue.str fr)],
        by simp [_create_event_stream_message, h1, h2, hrc, hfr], by simp⟩
    · exact ⟨[], by simp [_create_event_stream_message, h1, h2, hrc, hfr], by simp⟩

theorem esm_keys (chunk : MessageChunk) (meta : Metadata) (tid an : String) :
    ∀ kv ∈ _create_event_stream_message chunk meta tid an,
      kv.1 ∈ (["thread_id", "agent", "id", "role", "checkpoint_ns", "langgraph_node",
        "langgraph_path", "langgraph_step", "content", "reasoning_content",
        "finish_reason"] : List String) := by
  intro kv hkv
  obtain ⟨ext, heq, hext⟩ := esm_decomp chunk meta tid an
  rw [heq] at hkv
  rw [List.mem_append] at hkv
  rcases hkv with hkv | hkv
  · simp only [List.mem_cons, List.not_mem_nil, or_false] at hkv
    rcases hkv with rfl | rfl | rfl | rfl | rfl | rfl | rfl | rfl | rfl <;> simp
  · rcases hext kv hkv with hx | hx <;> rw [hx] <;> simp

theorem esm_find_extra_none (chunk : MessageChunk) (meta : Metadata) (tid an : String)
    (k : String)
    (hk : k ∉ (["thread_id", "agent", "id", "role", "checkpoint_ns", "langgraph_node",
      "langgraph_path", "langgraph_step", "content", "reasoning_content",
      "finish_reason"] : List String)) :
    (_create_event_stream_message chunk meta tid an).find? (fun kv => kv.1 == k) = none := by
  rw [List.find?_eq_none]
  intro kv hkv
  intro hq
  exact hk ((eq_of_beq hq) ▸ esm_keys chunk meta tid an kv hkv)

theorem dictGet_esm_append (chunk : MessageChunk) (meta : Metadata) (tid an : String)
    (extra : EventData) (k : String)
    (hk : k ∉ (["thread_id", "agent", "id", "role", "checkpoint_ns", "langgraph_node",
      "langgraph_path", "langgraph_step", "content", "reasoning_content",
      "finish_reason"] : List String)) :
    dictGet (_create_event_stream_message chunk meta tid an ++ extra) k =
      dictGet extra k := by
  rw [dictGet_append, esm_find_extra_none chunk meta tid an k hk]
  cases h : List.find? (fun kv => kv.1 == k) extra <;> simp [dictGet, h]

/-- C1: every message-stream ExecutionEvent translates to exactly one
WireEvent: a ToolResult to `tool_call_result` carrying the originating
`tool_call_id`; a MessageFragment with completed tool calls to
`tool_calls` embedding both the structured calls and the sanitized
argument chunks; one with only partial tool-call fragments to
`tool_call_chunks`; and one with neither to `message_chunk`. -/
theorem event_translator_mapping (chunk : MessageChunk) (meta : Metadata)
    (thread_id : String) (agent : List String) :
    ∃ p : String × EventData,
      _process_message_chunk_raw chunk meta thread_id agent = [p] ∧
      _process_message_chunk chunk meta thread_id agent = [_make_event p.1 p.2] ∧
      (match chunk with
       | .tool m =>
         p.1 = "tool_call_result" ∧
         dictGet p.2 "tool_call_id" = some (.str m.tool_call_id)
       | .ai m =>
         if !m.tool_calls.isEmpty then
           p.1 = "tool_calls" ∧
           dictGet p.2 "tool_calls" = some (.toolCalls m.tool_calls) ∧
           dictGet p.2 "tool_call_chunks" =
             some (.chunks (_process_tool_call_chunks m.tool_call_chunks))
         else if !m.tool_call_chunks.isEmpty then
           p.1 = "tool_call_chunks" ∧
           dictGet p.2 "tool_call_chunks" =
             some (.chunks (_process_tool_call_chunks m.tool_call_chunks))
         else p.1 = "message_chunk") := by
  cases chunk with
  | tool m =>
    refine ⟨("tool_call_result",
      _create_event_stream_message (.tool m) meta thread_id
          (_get_agent_name agent meta) ++
        [("tool_call_id", FieldValue.str m.tool_call_id)]), rfl, rfl, rfl, ?_⟩
    rw [dictGet_esm_append _ _ _ _ _ _ (by decide)]
    simp [dictGet, List.find?]
  | ai m =>
    cases htc : m.tool_calls.isEmpty with
    | false =>
      refine ⟨("tool_calls",
        _create_event_stream_message (.ai m) meta thread_id
            (_get_agent_name agent meta) ++
          [("tool_calls", FieldValue.toolCalls m.tool_calls),
           ("tool_call_chunks",
             FieldValue.chunks (_process_tool_call_chunks m.tool_call_chunks))]),
        ?_, ?_, ?_⟩
      · simp [_process_message_chunk_raw, htc]
      · simp [_process_message_chunk, _process_message_chunk_raw, htc]
      · simp only [htc, Bool.not_false]
        rw [if_pos trivial]
        refine ⟨trivial, ?_, ?_⟩
        · rw [dictGet_esm_append _ _ _ _ _ _ (by decide)]
          simp [dictGet, List.find?]
        · rw [dictGet_esm_append _ _ _ _ _ _ (by decide)]
          simp [dictGet, List.find?]
    | true =>
      cases hcc : m.tool_call_chunks.isEmpty with
      | false =>
        refine ⟨("tool_call_chunks",
          _create_event_stream_message (.ai m) meta thread_id
              (_get_agent_name agent meta) ++
            [("tool_call_chunks",
              FieldValue.chunks (_process_tool_call_chunks m.tool_call_chunks))]),
          ?_, ?_, ?_⟩
        · simp [_process_message_chunk_raw, htc, hcc]
        · simp [_process_message_chunk, _process_message_chunk_raw, htc, hcc]
        · simp only [htc, hcc, Bool.not_false, Bool.not_true]
          rw [if_pos trivial]
          refine ⟨trivial, ?_⟩
          rw [dictGet_esm_append _ _ _ _ _ _ (by decide)]
          simp [dictGet, List.find?]
      | true =>
        refine ⟨("message_chunk",
          _create_event_stream_message (.ai m) meta thread_id
            (_get_agent_name agent meta)), ?_, ?_, ?_⟩
        · simp [_process_message_chunk_raw, htc, hcc]
        · simp [_process_message_chunk, _process_message_chunk_raw, htc, hcc]
        · simp only [htc, hcc, Bool.not_true]
          exact trivial

/-- C6: serializing a WireEvent whose `content` equals the empty string
produces a payload with no `content` key at all (the framed result
coincides with that of the payload with the key removed); non-empty
content is included verbatim as a JSON string literal, and with
`ensure_ascii` disabled non-ASCII characters pass through unescaped. -/
theorem content_omission_and_verbatim (t : String) (data : EventData) :
    (dictGet data "content" = some (.str "") →
      _make_event t data = _make_event t (dictPop data "content") ∧
      dictGet (dictPop data "content") "content" = none) ∧
    (∀ c, dictGet data "content" = some (.str c) → c ≠ "" →
      (∀ kv ∈ data, kv.2 ≠ FieldValue.nonSerializable) →
      ∃ pre post, (_make_event t data).payload =
        pre ++ ("\"content\": " ++ encodeString false c) ++ post) ∧
    (∀ ch : Char, 128 ≤ ch.toNat → escapeChar false ch = String.singleton ch) ∧
    (∀ c : String, (∀ ch ∈ c.data, ch ≠ '"' ∧ ch ≠ '\\' ∧ 32 ≤ ch.toNat) →
      encodeString false c = "\"" ++ c ++ "\"") := by
  refine ⟨?_, ?_, escapeChar_nonascii, ?_⟩
  · intro hc
    have hpop2 : dictGet (dictPop data "content") "content" = none :=
      dictGet_pop_self data "content"
    refine ⟨?_, hpop2⟩
    show _make_event t data = _make_event t (dictPop data "content")
    simp only [_make_event, if_pos hc, hpop2]
    rw [if_neg (fun h => Option.noConfusion h)]
  · intro c hcget hcne hser
    have hcond : ¬ dictGet data "content" = some (.str "") := by
      rw [hcget]
      intro h
      apply hcne
      simpa using h
    have hfind : ∃ kv0, data.find? (fun kv => kv.1 == "content") = some kv0 ∧
        kv0 = ("content", FieldValue.str c) := by
      rw [dictGet] at hcget
      cases hf : data.find? (fun kv => kv.1 == "content") with
      | none => rw [hf] at hcget; exact absurd hcget (by simp)
      | some kv0 =>
        rw [hf] at hcget
        have h1 : kv0.2 = FieldValue.str c := by simpa using hcget
        have h2 : kv0.1 = "content" := by
          have hb := List.find?_some hf
          simpa using hb
        refine ⟨kv0, rfl, ?_⟩
        cases kv0
        simp only at h1 h2
        rw [h1, h2]
    obtain ⟨kv0, hf, hk0⟩ := hfind
    subst hk0
    obtain ⟨d₁, d₂, hdecomp⟩ := find?_decomp hf
    obtain ⟨j, hj⟩ := dumps_isSome false ", " ": " data hser
    have hpayload : (_make_event t data).payload = j := by
      simp only [_make_event, if_neg hcond, hj]
    rw [dumps] at hj
    cases hm : mapOpt (renderItem false ", " ": ") data with
    | none => rw [hm] at hj; exact absurd hj (by simp)
    | some parts =>
      rw [hm] at hj
      have hj' : j = "\x7b" ++ joinSep ", " parts ++ "\x7d" := by
        simpa using hj.symm
      have hitem : renderItem false ", " ": " ("content", FieldValue.str c) =
          some ("\"content\": " ++ encodeString false c) := rfl
      rw [hdecomp, mapOpt_append, mapOpt_cons, hitem] at hm
      cases hm1 : mapOpt (renderItem false ", " ": ") d₁ with
      | none => rw [hm1] at hm; simp at hm
      | some P1 =>
        rw [hm1] at hm
        cases hm2 : mapOpt (renderItem false ", " ": ") d₂ with
        | none =>
          rw [hm2] at hm
          simp at hm
        | some P2 =>
          rw [hm2] at hm
          simp only [Option.bind_some, Option.map_some] at hm
          have hparts : parts = P1 ++ ("\"content\": " ++ encodeString false c) :: P2 := by
            simpa using hm.symm
          obtain ⟨pre0, post0, hjoin⟩ :=
            joinSep_decomp ", " ("\"content\": " ++ encodeString false c) P1 P2
          refine ⟨"\x7b" ++ pre0, post0 ++ "\x7d", ?_⟩
          rw [hpayload, hj', hparts, hjoin]
          simp [String.append_assoc]
  · intro c h
    rw [encodeString, escapeBody_plain c h]

/-- C6 witness: an empty-content payload frames identically to the
payload without the key; non-empty non-ASCII content `"héllo"` appears
verbatim in the serialized JSON. -/
theorem content_omission_and_verbatim_witness :
    (_make_event "message_chunk" [("thread_id", FieldValue.str "t"), ("content", FieldValue.str "")] =
      _make_event "message_chunk"
        (dictPop [("thread_id", FieldValue.str "t"), ("content", FieldValue.str "")] "content")) ∧
    (∃ pre post,
      (_make_event "message_chunk"
        [("thread_id", FieldValue.str "t"), ("content", FieldValue.str "héllo")]).payload =
        pre ++ ("\"content\": " ++ encodeString false "héllo") ++ post) ∧
    escapeChar false 'é' = String.singleton 'é' ∧
    encodeString false "héllo" = "\"" ++ "héllo" ++ "\"" := by
  refine ⟨?_, ?_, ?_, ?_⟩
  · exact ((content_omission_and_verbatim "message_chunk"
      [("thread_id", FieldValue.str "t"), ("content", FieldValue.str "")]).1 (by decide)).1
  · exact (content_omission_and_verbatim "message_chunk"
      [("thread_id", FieldValue.str "t"), ("content", FieldValue.str "héllo")]).2.1
      "héllo" (by decide) (by decide)
      (by intro kv hkv; simp only [List.mem_cons, List.not_mem_nil, or_false] at hkv
          rcases hkv with rfl | rfl <;> simp)
  · exact (content_omission_and_verbatim "message_chunk" []).2.2.1 'é' (by decide)
  · exact (content_omission_and_verbatim "message_chunk" []).2.2.2 "héllo" (by decide)

/-- C10: each initial client message that is a dict with a `content`
key is recorded to the per-thread side log — before any engine-derived
record — as a `message_chunk` record tagged `"none"`, keyed by the
thread id, whose payload carries role `"user"` and an id prefixed
`"run--"`; yet the network stream consists exclusively of
engine-derived events (it does not depend on the initial messages). -/
theorem initial_messages_side_log_only (messages : List ClientMessage)
    (thread_id uuid_hex : String) (saver : Bool) (url : String)
    (items : List EngineItem) :
    (_astream_workflow_generator messages thread_id uuid_hex saver url items).net =
      ((_checkpoint_backends saver url).flatMap
        (fun _ => _stream_graph_events thread_id items)).map Framed.sse ∧
    ∃ initRecs : List LogRecord,
      (_astream_workflow_generator messages thread_id uuid_hex saver url items).log =
        initRecs ++ ((_checkpoint_backends saver url).flatMap
          (fun _ => _stream_graph_events thread_id items)).filterMap Framed.log ∧
      initRecs.length = messages.countP msgIsDictWithContent ∧
      ∀ r ∈ initRecs,
        r.finish_reason = "none" ∧ r.thread_id = thread_id ∧
        ∃ d : EventData,
          r.message =
            "event: message_chunk\ndata: " ++ (dumps false "," ":" d).getD "" ++ "\n\n" ∧
          dictGet d "role" = some (.str "user") ∧
          (∃ suffix, dictGet d "id" = some (.str ("run--" ++ suffix))) ∧
          dictGet d "thread_id" = some (.str thread_id) := by
  have hlog : (_astream_workflow_generator messages thread_id uuid_hex saver url items).log =
      messages.filterMap (fun m =>
        match m with
        | .dict fields =>
          if (fields.find? (fun kv => kv.1 == "content")).isSome then
            some (_process_initial_messages fields thread_id uuid_hex)
          else none
        | .nonDict => none) ++
        ((_checkpoint_backends saver url).flatMap
          (fun _ => _stream_graph_events thread_id items)).filterMap Framed.log := rfl
  refine ⟨rfl, messages.filterMap (fun m =>
    match m with
    | .dict fields =>
      if (fields.find? (fun kv => kv.1 == "content")).isSome then
        some (_process_initial_messages fields thread_id uuid_hex)
      else none
    | .nonDict => none), hlog, ?_, ?_⟩
  · clear hlog
    induction messages with
    | nil => rfl
    | cons m ms ih =>
      cases m with
      | nonDict =>
        simpa [List.filterMap_cons, List.countP_cons, msgIsDictWithContent] using ih
      | dict fields =>
        cases hq : (fields.find? (fun kv => kv.1 == "content")).isSome with
        | false =>
          simpa [List.filterMap_cons, List.countP_cons, msgIsDictWithContent, hq] using ih
        | true =>
          simpa [List.filterMap_cons, List.countP_cons, msgIsDictWithContent, hq] using ih
  · intro r hr
    rw [List.mem_filterMap] at hr
    obtain ⟨m, _, hm⟩ := hr
    cases m with
    | nonDict => exact absurd hm (by simp)
    | dict fields =>
      have hm' : (if (fields.find? (fun kv => kv.1 == "content")).isSome then
          some (_process_initial_messages fields thread_id uuid_hex)
        else none) = some r := hm
      cases hq : (fields.find? (fun kv => kv.1 == "content")).isSome with
      | false => rw [hq] at hm'; simp at hm'
      | true =>
        rw [hq] at hm'
        simp only [if_true, Option.some_inj] at hm'
        subst hm'
        refine ⟨rfl, rfl,
          [("thread_id", .str thread_id),
           ("id", .str ("run--" ++ mget fields "id" uuid_hex)),
           ("role", .str "user"),
           ("content", .str (mget fields "content" ""))],
          rfl, rfl, ⟨mget fields "id" uuid_hex, rfl⟩, rfl⟩

/-- C10 witness: with one qualifying initial message and no engine
items, the network stream is empty while the side log holds exactly one
record, tagged `"none"` and keyed by the thread id. -/
theorem initial_messages_side_log_only_witness :
    (_astream_workflow_generator
      [ClientMessage.dict [("content", "hi"), ("id", "a1")], ClientMessage.nonDict]
      "t" "u" false "" []).net = [] ∧
    ∃ initRecs : List LogRecord,
      (_astream_workflow_generator
        [ClientMessage.dict [("content", "hi"), ("id", "a1")], ClientMessage.nonDict]
        "t" "u" false "" []).log = initRecs ∧
      initRecs.length = 1 ∧
      ∀ r ∈ initRecs, r.finish_reason = "none" ∧ r.thread_id = "t" := by
  have h := initial_messages_side_log_only
    [ClientMessage.dict [("content", "hi"), ("id", "a1")], ClientMessage.nonDict]
    "t" "u" false "" []
  refine ⟨h.1.trans (by decide), ?_⟩
  obtain ⟨recs, hl, hlen, hall⟩ := h.2
  have hnil : ((_checkpoint_backends false "").flatMap
      (fun _ => _stream_graph_events "t" [])).filterMap Framed.log = [] := by decide
  refine ⟨recs, ?_, ?_, fun r hr => ⟨(hall r hr).1, (hall r hr).2.1⟩⟩
  · rw [hl, hnil, List.append_nil]
  · exact hlen.trans (by decide)

end AgentDemo

